import Mathlib

/-!
Verification development for the LoL matches tracking service (`app/main.py`).

The Python module is shallowly embedded: raw provider records (parsed JSON)
become the inductive type `JVal`; Python dictionary/`.get`/iteration/truthiness
semantics are modelled explicitly, and every operation that can raise a Python
exception returns `Except PyErr`.  The third-party timestamp parser
(`dateutil` + `pytz`) is external library code and is abstracted as a
`parseT : String → Option (String × String)` parameter (local ISO string and
`DD/MM HH:MM` human string on success); `datetime.now(LOCAL_TZ).isoformat()`
is abstracted as a `now : String` parameter.  JSON numbers are modelled as
integers (the provider's ids and scores are integral).
-/

/-- A parsed JSON value, the shape of every raw provider record.  Python
dictionaries cannot hold duplicate keys, so `jobj` field lists are assumed
key-distinct (first lookup wins). -/
inductive JVal where
  | jnull
  | jbool (b : Bool)
  | jint (n : Int)
  | jstr (s : String)
  | jarr (xs : List JVal)
  | jobj (fs : List (String × JVal))

/-- Python exception classes reachable from the embedded code. -/
inductive PyErr where
  | attributeError
  | typeError
  | keyError
  deriving DecidableEq

namespace JVal

/-- Python truthiness (`bool(v)`) of a JSON value. -/
def pyTruthy : JVal → Bool
  | .jnull => false
  | .jbool b => b
  | .jint n => n ≠ 0
  | .jstr s => s ≠ ""
  | .jarr xs => !xs.isEmpty
  | .jobj fs => !fs.isEmpty

def isObj : JVal → Bool
  | .jobj _ => true
  | _ => false

def isArr : JVal → Bool
  | .jarr _ => true
  | _ => false

def isStr : JVal → Bool
  | .jstr _ => true
  | _ => false

def isNull : JVal → Bool
  | .jnull => true
  | _ => false

/-- Whether a value can be a Python dict key (`hash(v)` succeeds):
lists and dicts are unhashable. -/
def hashable : JVal → Bool
  | .jarr _ => false
  | .jobj _ => false
  | _ => true

/-- Field lookup inside an object's field list; Python `d.get(k)` returns
`None` when the key is absent. -/
def jget (fs : List (String × JVal)) (k : String) : JVal :=
  ((fs.lookup k).getD .jnull)

/-- Python `v.get(k)`: raises `AttributeError` unless `v` is a dict. -/
def pyGet (v : JVal) (k : String) : Except PyErr JVal :=
  match v with
  | .jobj fs => .ok (jget fs k)
  | _ => .error .attributeError

/-- Python `v.get(k, d)` with an explicit default. -/
def pyGetD (v : JVal) (k : String) (d : JVal) : Except PyErr JVal :=
  match v with
  | .jobj fs => .ok ((fs.lookup k).getD d)
  | _ => .error .attributeError

/-- Python `a or b` (first operand if truthy, else the second). -/
def pyOr (a b : JVal) : JVal :=
  if pyTruthy a then a else b

/-- Python iteration `for x in v`: lists yield elements, strings yield
one-character strings, dicts yield their keys; other values raise
`TypeError`. -/
def pyIter : JVal → Except PyErr (List JVal)
  | .jarr xs => .ok xs
  | .jstr s => .ok (s.toList.map (fun c => .jstr (String.mk [c])))
  | .jobj fs => .ok (fs.map (fun p => .jstr p.1))
  | _ => .error .typeError

/-- Canonical form of a (hashable) value under Python `==`: `True`/`False`
compare (and hash) equal to `1`/`0`. -/
def canonS : JVal → JVal
  | .jbool b => .jint (if b then 1 else 0)
  | v => v

/-- Python `==` on (hashable) dict keys: `True == 1` and `False == 0`;
unhashable values never occur as dict keys (all inserts and lookups in the
embedded code are guarded by `hashable`). -/
def keyBeq (a b : JVal) : Bool :=
  match canonS a, canonS b with
  | .jnull, .jnull => true
  | .jint x, .jint y => x == y
  | .jstr x, .jstr y => x == y
  | _, _ => false

mutual
/-- Python `repr(v)` (simplified to ASCII quoting) for JSON values. -/
def pyRepr : JVal → String
  | .jnull => "None"
  | .jbool b => if b then "True" else "False"
  | .jint n => toString n
  | .jstr s => "'" ++ s ++ "'"
  | .jarr xs => "[" ++ pyReprList xs ++ "]"
  | .jobj fs => "\x7b" ++ pyReprFields fs ++ "\x7d"

def pyReprList : List JVal → String
  | [] => ""
  | [x] => pyRepr x
  | x :: xs => pyRepr x ++ ", " ++ pyReprList xs

def pyReprFields : List (String × JVal) → String
  | [] => ""
  | [(k, v)] => "'" ++ k ++ "': " ++ pyRepr v
  | (k, v) :: fs => "'" ++ k ++ "': " ++ pyRepr v ++ ", " ++ pyReprFields fs
end

/-- Python `str(v)` as used by f-string interpolation. -/
def pyStr : JVal → String
  | .jstr s => s
  | v => pyRepr v

end JVal

section SanityChecks

example : JVal.pyStr (.jint (-3)) = "-3" := by decide
example : JVal.pyStr (.jarr [.jint 1, .jstr "a"]) = "[1, 'a']" := by decide
example : JVal.keyBeq (.jbool true) (.jint 1) = true := by decide
example : JVal.pyTruthy (.jobj []) = false := by decide

end SanityChecks

open JVal

/-- Python dict as an insertion-ordered association list (`{k: v, ...}`).
`dictInsert` models `d[k] = v`: an existing (`==`-equal) key keeps its
position and original key object, a new key is appended. -/
def dictInsert (mp : List (JVal × JVal)) (k v : JVal) : List (JVal × JVal) :=
  if mp.any (fun p => keyBeq p.1 k) then
    mp.map (fun p => if keyBeq p.1 k then (p.1, v) else p)
  else mp ++ [(k, v)]

/-- Python `d.get(k)` / `d[k]` lookup on the association-list dict (callers
guard unhashable keys with `hashable` before calling, as CPython raises
`TypeError` on them). -/
def dictGet? (mp : List (JVal × JVal)) (k : JVal) : Option JVal :=
  (mp.find? (fun p => keyBeq p.1 k)).map (·.2)

/-- `List.mapM` specialised to `Except`, written recursively so theorems can
proceed by plain structural induction. -/
def exceptMapM (f : α → Except PyErr β) : List α → Except PyErr (List β)
  | [] => .ok []
  | x :: xs => do
    let y ← f x
    let ys ← exceptMapM f xs
    pure (y :: ys)

/-- `List.foldlM` specialised to `Except`. -/
def exceptFoldlM (f : β → α → Except PyErr β) : β → List α → Except PyErr β
  | acc, [] => .ok acc
  | acc, x :: xs => do
    let acc' ← f acc x
    exceptFoldlM f acc' xs

/-- `sep.join(ss)` on a list of strings. -/
def joinSep (sep : String) : List String → String
  | [] => ""
  | [s] => s
  | s :: rest => s ++ sep ++ joinSep sep rest

/-- The underlying strings of a list of values, when they all are strings. -/
def strList? : List JVal → Option (List String)
  | [] => some []
  | .jstr s :: rest => (strList? rest).map (fun ss => s :: ss)
  | _ => none

/-- Python `" - ".join(parts)`: every element must be a string, otherwise
`TypeError` is raised. -/
def pyJoinStrs (sep : String) (parts : List JVal) : Except PyErr String :=
  match strList? parts with
  | some ss => .ok (joinSep sep ss)
  | none => .error .typeError

/-- One team entry of a normalized match: the dict
`{"id": ..., "name": ..., "logo": ..., "score": ...}` built by `_normalize`
(a `jnull` score is Python `None`, i.e. no score found for that team). -/
structure TeamSlot where
  id : JVal
  name : JVal
  logo : JVal
  score : JVal

/-- The canonical display record returned by `_normalize` (the dict literal at
the end of the Python function).  `Option String` fields are exactly the ones
the code only ever fills with `None` or a string. -/
structure TrackedMatch where
  id : JVal
  tournament : Option String
  teams : List TeamSlot
  begin_at_utc : JVal
  begin_at_local : Option String
  begin_at_local_human : Option String
  status : JVal
  status_label : JVal
  best_of : JVal
  last_update : String

/-- `_normalize`, league part: appends `match["league"].get("name")` when the
league field is a truthy dict and the name is truthy. -/
def leaguePart (m : JVal) : Except PyErr (List JVal) := do
  let lg ← pyGet m "league"
  if pyTruthy lg && lg.isObj then
    let ln ← pyGet lg "name"
    pure (if pyTruthy ln then [ln] else [])
  else pure []

/-- `_normalize`, serie part: `serie.get("full_name") or serie.get("season")`
when the serie field is a truthy dict. -/
def seriePart (m : JVal) : Except PyErr (List JVal) := do
  let sr ← pyGet m "serie"
  if pyTruthy sr && sr.isObj then
    let fn ← pyGet sr "full_name"
    let ssn ← pyGet sr "season"
    let sn := pyOr fn ssn
    pure (if pyTruthy sn then [sn] else [])
  else pure []

/-- `_normalize`, tournament-name fallback used only when no league/serie part
was collected. -/
def tournFallback (m : JVal) : Except PyErr (List JVal) := do
  let t ← pyGet m "tournament"
  if pyTruthy t && t.isObj then
    let tn ← pyGet t "name"
    pure (if pyTruthy tn then [tn] else [])
  else pure []

/-- The `tournament_parts` list built at the top of `_normalize`. -/
def tournamentParts (m : JVal) : Except PyErr (List JVal) := do
  let ps ← (do pure ((← leaguePart m) ++ (← seriePart m)))
  if ps.isEmpty then tournFallback m else pure ps

/-- `tournament = " - ".join(tournament_parts) if tournament_parts else None`. -/
def tournamentOf (m : JVal) : Except PyErr (Option String) := do
  let ps ← tournamentParts m
  if ps.isEmpty then pure none
  else do
    let s ← pyJoinStrs " - " ps
    pure (some s)

/-- One iteration of the `for result in match["results"]` loop building
`scores_map` (skips entries with a `None` team_id or score; an unhashable
team_id raises `TypeError` at the dict assignment, as in CPython). -/
def insResult (sm : List (JVal × JVal)) (r : JVal) : Except PyErr (List (JVal × JVal)) := do
  let tid ← pyGet r "team_id"
  let sc ← pyGet r "score"
  if !tid.isNull && !sc.isNull then
    if hashable tid then pure (dictInsert sm tid sc)
    else .error .typeError
  else pure sm

/-- The `scores_map` dict of `_normalize`. -/
def scoresMapOf (m : JVal) : Except PyErr (List (JVal × JVal)) := do
  let rs ← pyGet m "results"
  if pyTruthy rs then do
    let items ← pyIter rs
    exceptFoldlM insResult [] items
  else pure []

/-- One iteration of the `for opp in match.get("opponents", [])` loop:
unwraps a truthy `opponent` sub-object, then reads id/name/logo and looks the
score up by team id (the lookup is only attempted when `scores_map` is
non-empty, exactly as in the source). -/
def teamOf (sm : List (JVal × JVal)) (opp : JVal) : Except PyErr TeamSlot := do
  let inner ← if opp.isObj then pyGet opp "opponent" else pure .jnull
  let oppObj := if opp.isObj && pyTruthy inner then inner else opp
  let tid ← pyGet oppObj "id"
  let score ←
    if !sm.isEmpty then
      if hashable tid then pure ((dictGet? sm tid).getD .jnull)
      else .error .typeError
    else pure .jnull
  let nm ← pyGet oppObj "name"
  let iu ← pyGet oppObj "image_url"
  let lg ← pyGet oppObj "logo"
  pure { id := tid, name := nm, logo := pyOr iu lg, score := score }

/-- The `teams` list of `_normalize`. -/
def teamsOf (m : JVal) (sm : List (JVal × JVal)) : Except PyErr (List TeamSlot) := do
  let os ← pyGetD m "opponents" (.jarr [])
  let items ← pyIter os
  exceptMapM (teamOf sm) items

/-- The time block of `_normalize`: `begin_at` passes through unchanged; the
local fields are derived only when `begin_at` is truthy, via the abstracted
third-party parser (the whole block is wrapped in `try/except`, so a parse
failure — including a non-string `begin_at` — degrades to `None` fields). -/
def timesOf (parseT : String → Option (String × String)) (m : JVal) :
    Except PyErr (JVal × Option String × Option String) := do
  let ba ← pyGet m "begin_at"
  if pyTruthy ba then
    match ba with
    | .jstr s =>
      match parseT s with
      | some (iso, human) => pure (ba, some iso, some human)
      | none => pure (ba, none, none)
    | _ => pure (ba, none, none)
  else pure (ba, none, none)

/-- The status-label dict literal `.get(status, status)`; an unhashable status
raises `TypeError` (uncaught in the source). -/
def statusLabelOf (status : JVal) : Except PyErr JVal :=
  if hashable status then
    .ok (match status with
      | .jstr "not_started" => .jstr "À venir"
      | .jstr "running" => .jstr "En cours"
      | .jstr "finished" => .jstr "Terminé"
      | .jstr "canceled" => .jstr "Annulé"
      | .jstr "postponed" => .jstr "Reporté"
      | s => s)
  else .error .typeError

/-- `_normalize(match)` from `app/main.py`: the full normalizer.  `parseT`
abstracts `dateutil.parser.parse` + timezone conversion, `now` abstracts
`datetime.now(LOCAL_TZ).isoformat()`. -/
def _normalize (parseT : String → Option (String × String)) (now : String)
    (m : JVal) : Except PyErr TrackedMatch := do
  let tournament ← tournamentOf m
  let sm ← scoresMapOf m
  let teams ← teamsOf m sm
  let (utc, lcl, human) ← timesOf parseT m
  let status ← pyGet m "status"
  let label ← statusLabelOf status
  let id ← pyGet m "id"
  let ng ← pyGet m "number_of_games"
  let mt ← pyGet m "match_type"
  pure { id := id, tournament := tournament, teams := teams,
         begin_at_utc := utc, begin_at_local := lcl,
         begin_at_local_human := human, status := status,
         status_label := label, best_of := pyOr ng mt, last_update := now }


/-- Python `current_status == "running"` on the stored status value (`==`
between a non-string and a string is `False`, never an error). -/
def statusIsRunning : JVal → Bool
  | .jstr s => s == "running"
  | _ => false

/-- The on-disk cache record written by `_save_cache`:
`{"matches": ..., "last_refresh": ...}`. -/
structure CacheStore where
  «matches» : List TrackedMatch
  last_refresh : Option String

/-- The engine's module-level state: `_tracked_matches`, `_last_refresh`, and
the persisted cache file. -/
structure EngineState where
  tracked : List TrackedMatch
  lastRefresh : Option String
  store : CacheStore

/-- The state right after process start with no readable cache file:
empty tracked list, `_last_refresh = None`. -/
def initState : EngineState :=
  { tracked := [], lastRefresh := none, store := { «matches» := [], last_refresh := none } }

/-- One step of `running_by_id = {m.get("id"): m for m in running_matches}`
(an unhashable id raises `TypeError` during comprehension, as in CPython). -/
def insRunning (mp : List (JVal × JVal)) (r : JVal) : Except PyErr (List (JVal × JVal)) := do
  let k ← pyGet r "id"
  if hashable k then pure (dictInsert mp k r)
  else .error .typeError

/-- The `running_by_id` dict of `update_scores`. -/
def buildRunningMap (running : List JVal) : Except PyErr (List (JVal × JVal)) :=
  exceptFoldlM insRunning [] running

/-- The body of `update_scores`' per-slot loop (each iteration reads and
overwrites only its own index, so the loop is a map over positions):
a slot in the running feed is overwritten with the normalized fresh record;
a slot whose stored status is `"running"` but which is absent from the feed
is re-fetched by id and overwritten if the fetch returns data; every other
slot is left untouched.  The `match_id in running_by_id` membership test
raises `TypeError` on an unhashable id. -/
def updateSlot (parseT : String → Option (String × String)) (now : String)
    (mp : List (JVal × JVal)) (byId : JVal → Option JVal) (m : TrackedMatch) :
    Except PyErr TrackedMatch :=
  if hashable m.id then
    match dictGet? mp m.id with
    | some fresh => _normalize parseT now fresh
    | none =>
      if statusIsRunning m.status then
        match byId m.id with
        | some d => _normalize parseT now d
        | none => pure m
      else pure m
  else .error .typeError

/-- `update_scores()` from `app/main.py`.  `running` is the
`_fetch_running_matches()` response; `byId` is `_fetch_match_by_id` (`none` is
Python `None`, i.e. not found / error).  Note the source bug kept faithfully
here: `update_scores` declares `global _tracked_matches` but NOT
`_last_refresh`, so the assignment `_last_refresh = datetime.now(...)` near
the end of the function binds a function-local variable that is immediately
discarded; the module-level `_last_refresh` is unchanged and `_save_cache`
persists the old value alongside the new match list. -/
def update_scores (parseT : String → Option (String × String)) (now : String)
    (running : List JVal) (byId : JVal → Option JVal) (st : EngineState) :
    Except PyErr EngineState :=
  if st.tracked.isEmpty then .ok st
  else do
    let mp ← buildRunningMap running
    let tracked' ← exceptMapM (updateSlot parseT now mp byId) st.tracked
    pure { tracked := tracked', lastRefresh := st.lastRefresh,
           store := { «matches» := tracked', last_refresh := st.lastRefresh } }

/-- `refresh_matches_list()` from `app/main.py`: on a non-empty upcoming
fetch, replace the whole tracked list with the normalized records, set
`_last_refresh` (this function does declare both globals) and save; on an
empty fetch, do nothing. -/
def refresh_matches_list (parseT : String → Option (String × String)) (now : String)
    (raw : List JVal) (st : EngineState) : Except PyErr EngineState :=
  if raw.isEmpty then .ok st
  else do
    let tracked' ← exceptMapM (_normalize parseT now) raw
    pure { tracked := tracked', lastRefresh := some now,
           store := { «matches» := tracked', last_refresh := some now } }

/-- `GET /healthz` response. -/
structure HealthResp where
  status : String
  tracked_matches : Nat
  last_refresh : Option String

/-- The `/healthz` handler. -/
def healthz (st : EngineState) : HealthResp :=
  { status := "ok", tracked_matches := st.tracked.length, last_refresh := st.lastRefresh }

/-- `GET /lol/matches` response (the `message`/`next_update` fields are only
present in one of the two branches). -/
structure MatchesResp where
  «matches» : List TrackedMatch
  message : Option String
  last_refresh : Option String
  next_update : Option String

/-- The `/lol/matches` handler. -/
def get_matches (st : EngineState) : MatchesResp :=
  if st.tracked.isEmpty then
    { «matches» := [], message := some "Aucun match tracké. Attendez le prochain rafraîchissement.",
      last_refresh := st.lastRefresh, next_update := none }
  else
    { «matches» := st.tracked, message := none,
      last_refresh := st.lastRefresh, next_update := some "Toutes les 10 minutes" }

/-- `teams[0] if len(teams) > 0 else {}` followed by `.get('name', '?')`:
the `'?'` default fires only when the team slot itself is missing (an empty
dict); a present slot renders whatever its name value is via the f-string
(`None` prints as `"None"`). -/
def teamNameStr : Option TeamSlot → String
  | none => "?"
  | some t => pyStr t.name

/-- `"[{s1}-{s2}]" if both scores are not None else "vs"`. -/
def scoreStrOf (t1? t2? : Option TeamSlot) : String :=
  let s1 := (t1?.map TeamSlot.score).getD .jnull
  let s2 := (t2?.map TeamSlot.score).getD .jnull
  if !s1.isNull && !s2.isNull then "[" ++ pyStr s1 ++ "-" ++ pyStr s2 ++ "]"
  else "vs"

/-- The status-icon dict literal `.get(match.get("status"), "📅")`; an
unhashable status raises `TypeError`. -/
def statusIcon (status : JVal) : Except PyErr String :=
  if hashable status then
    .ok (match status with
      | .jstr "not_started" => "⏰"
      | .jstr "running" => "🔴"
      | .jstr "finished" => "✅"
      | .jstr "canceled" => "❌"
      | .jstr "postponed" => "⏸️"
      | _ => "📅")
  else .error .typeError

/-- Whether the first list is a prefix of the second (structurally, so that
concrete evaluations reduce). -/
def charsStartWith : List Char → List Char → Bool
  | [], _ => true
  | _ :: _, [] => false
  | a :: as, b :: bs => a == b && charsStartWith as bs

/-- The characters before the first occurrence of `sep` (the whole list when
`sep` does not occur): `s.split(sep)[0]`. -/
def upToSep (sep : List Char) : List Char → List Char
  | [] => []
  | c :: rest => if charsStartWith sep (c :: rest) then [] else c :: upToSep sep rest

/-- `match.get("tournament", "").split(" - ")[0] if match.get("tournament")
else ""` (the key is always present in a normalized record, so the value is
`None` or a string; both `None` and `""` are falsy). -/
def shortTournOf (m : TrackedMatch) : String :=
  match m.tournament with
  | some t => if t = "" then "" else String.mk (upToSep " - ".toList t.toList)
  | none => ""

/-- `{match.get('begin_at_local_human', '')}` in the f-string: the key is
always present in a normalized record, so the `''` default never fires and a
`None` value renders as `"None"`. -/
def humanOf (m : TrackedMatch) : String :=
  match m.begin_at_local_human with
  | some s => s
  | none => "None"

/-- One compact display line, exactly the f-string of
`get_matches_compact`. -/
def formatLine (m : TrackedMatch) : Except PyErr String := do
  let t1? := m.teams[0]?
  let t2? := m.teams[1]?
  let icon ← statusIcon m.status
  pure (icon ++ " " ++ teamNameStr t1? ++ " " ++ scoreStrOf t1? t2? ++ " "
        ++ teamNameStr t2? ++ " • " ++ humanOf m ++ " • " ++ shortTournOf m)

/-- `GET /lol/matches/compact` response. -/
structure CompactResp where
  match1 : String
  match2 : String
  match3 : String
  match4 : String
  match5 : String
  last_update : Option String

/-- The `/lol/matches/compact` handler: formats `_tracked_matches[:5]` and
pads the five slots with empty strings. -/
def get_matches_compact (st : EngineState) : Except PyErr CompactResp :=
  if st.tracked.isEmpty then
    .ok { match1 := "", match2 := "", match3 := "", match4 := "", match5 := "",
          last_update := st.lastRefresh }
  else do
    let lines ← exceptMapM formatLine (st.tracked.take 5)
    pure { match1 := lines.getD 0 "", match2 := lines.getD 1 "",
           match3 := lines.getD 2 "", match4 := lines.getD 3 "",
           match5 := lines.getD 4 "", last_update := st.lastRefresh }

/-- Shared trivial timestamp parser used for concrete evaluations (a parser
that always fails; any other choice works the same for these inputs). -/
def noParse : String → Option (String × String) := fun _ => none

/-- Erase the `last_update` normalization timestamp, leaving every other
observable field of a record. -/
def stripTs (m : TrackedMatch) : TrackedMatch := { m with last_update := "" }

/-- `some n` iff the value is the integer `n` (a convenient decidable
observable for ids in concrete states). -/
def idInt? : JVal → Option Int
  | .jint n => some n
  | _ => none

/-- The per-position contract of `update_scores` claimed by the spec: a slot
in the running map is overwritten with the normalized fresh record; a slot
with stored status `"running"` absent from the map is overwritten with the
normalized by-id response when there is one and kept unchanged when there is
none; any other slot is kept unchanged. -/
def SlotSpec (parseT : String → Option (String × String)) (now : String)
    (mp : List (JVal × JVal)) (byId : JVal → Option JVal)
    (m m' : TrackedMatch) : Prop :=
  (∀ fresh, dictGet? mp m.id = some fresh → _normalize parseT now fresh = .ok m') ∧
  (dictGet? mp m.id = none → statusIsRunning m.status = true →
    (∀ d, byId m.id = some d → _normalize parseT now d = .ok m') ∧
    (byId m.id = none → m' = m)) ∧
  (dictGet? mp m.id = none → statusIsRunning m.status = false → m' = m)

/-- A by-id fetch whose responses carry the queried id (the provider contract
of `GET /matches?filter[id]=...`). -/
def byIdHonest (byId : JVal → Option JVal) : Prop :=
  ∀ q d, byId q = some d → pyGet d "id" = .ok q

/-- A value that is appended to `tournament_parts` only if it is a string:
falsy values are skipped by the code, truthy ones must be strings for the
later `" - ".join` to succeed. -/
def strOrFalsy (v : JVal) : Bool := !pyTruthy v || v.isStr

/-- League field shape under which the league branch cannot poison the join. -/
def wfLeague (fs : List (String × JVal)) : Bool :=
  match jget fs "league" with
  | .jobj lfs => strOrFalsy (jget lfs "name")
  | _ => true

/-- Serie field shape under which the serie branch cannot poison the join. -/
def wfSerie (fs : List (String × JVal)) : Bool :=
  match jget fs "serie" with
  | .jobj sfs => strOrFalsy (pyOr (jget sfs "full_name") (jget sfs "season"))
  | _ => true

/-- Tournament-name fallback shape. -/
def wfTournN (fs : List (String × JVal)) : Bool :=
  match jget fs "tournament" with
  | .jobj tfs => strOrFalsy (jget tfs "name")
  | _ => true

/-- A results entry the score loop can process: an object with a hashable
team id. -/
def wfResultEntry (r : JVal) : Bool :=
  match r with
  | .jobj rfs => hashable (jget rfs "team_id")
  | _ => false

/-- Results field shape: absent/falsy, or a list of processable entries. -/
def wfResults (fs : List (String × JVal)) : Bool :=
  let rs := jget fs "results"
  !pyTruthy rs ||
    (match rs with
     | .jarr items => items.all wfResultEntry
     | _ => false)

/-- An opponents entry the team loop can process: an object whose truthy
`opponent` sub-field (if any) is itself an object, with a hashable team id. -/
def wfOppEntry (opp : JVal) : Bool :=
  match opp with
  | .jobj ofs =>
    let inner := jget ofs "opponent"
    if pyTruthy inner then
      match inner with
      | .jobj ifs => hashable (jget ifs "id")
      | _ => false
    else hashable (jget ofs "id")
  | _ => false

/-- Opponents field shape: a (possibly empty) list of processable entries
(an absent field defaults to the empty list). -/
def wfOpps (fs : List (String × JVal)) : Bool :=
  match (fs.lookup "opponents").getD (.jarr []) with
  | .jarr items => items.all wfOppEntry
  | _ => false

/-- Raw records on which `_normalize` is total: the structural shape the
provider actually serves (objects with object/string-typed metadata fields,
list-of-object results and opponents, hashable status). -/
def wellFormedRaw : JVal → Bool
  | .jobj fs =>
    wfLeague fs && wfSerie fs && wfTournN fs && wfResults fs && wfOpps fs &&
      hashable (jget fs "status")
  | _ => false

/-- Pairwise-distinct ids (under Python `==`) among raw upcoming records —
what a sane provider feed satisfies and `refresh_matches_list` implicitly
relies on. -/
def DistinctIds (raw : List JVal) : Prop :=
  List.Pairwise
    (fun a b => ∀ ka kb, pyGet a "id" = .ok ka → pyGet b "id" = .ok kb →
      canonS ka ≠ canonS kb) raw

/-- No two tracked entries share an id (under Python `==`). -/
def TrackedDistinct (st : EngineState) : Prop :=
  List.Pairwise (fun a b => canonS a.id ≠ canonS b.id) st.tracked

/-- States reachable from a fresh start by successful `refresh_matches_list`
and `update_scores` cycles with arbitrary provider responses. -/
inductive Reach (parseT : String → Option (String × String)) : EngineState → Prop
  | init : Reach parseT initState
  | refresh (st st' : EngineState) (now : String) (raw : List JVal) :
      Reach parseT st → refresh_matches_list parseT now raw st = .ok st' →
      Reach parseT st'
  | update (st st' : EngineState) (now : String) (running : List JVal)
      (byId : JVal → Option JVal) :
      Reach parseT st → update_scores parseT now running byId st = .ok st' →
      Reach parseT st'

/-- Like `Reach`, but every refresh feed has pairwise-distinct ids and every
by-id fetch response carries the queried id. -/
inductive GoodReach (parseT : String → Option (String × String)) : EngineState → Prop
  | init : GoodReach parseT initState
  | refresh (st st' : EngineState) (now : String) (raw : List JVal) :
      GoodReach parseT st → DistinctIds raw →
      refresh_matches_list parseT now raw st = .ok st' → GoodReach parseT st'
  | update (st st' : EngineState) (now : String) (running : List JVal)
      (byId : JVal → Option JVal) :
      GoodReach parseT st → byIdHonest byId →
      update_scores parseT now running byId st = .ok st' → GoodReach parseT st'

/-- The invariant of the `running_by_id` dict: every entry has a hashable key
that is `==`-equal to the (hashable) `id` field of its value. -/
def MapInv (mp : List (JVal × JVal)) : Prop :=
  ∀ p ∈ mp, hashable p.1 = true ∧
    ∃ k', pyGet p.2 "id" = .ok k' ∧ hashable k' = true ∧ keyBeq p.1 k' = true

/-- A minimal normalized record: what `_normalize` returns for a raw match
that only carries an id and a status. -/
def mkSimple (idv status label : JVal) (ts : String) : TrackedMatch :=
  { id := idv, tournament := none, teams := [], begin_at_utc := .jnull,
    begin_at_local := none, begin_at_local_human := none,
    status := status, status_label := label, best_of := .jnull,
    last_update := ts }

/-- An engine state whose cache file agrees with the in-memory state (the
shape every successful save leaves behind). -/
def mkState (l : List TrackedMatch) (lr : Option String) : EngineState :=
  { tracked := l, lastRefresh := lr,
    store := { «matches» := l, last_refresh := lr } }

/-- Raw record fixtures used by concrete evaluations. -/
def rawLFL : JVal :=
  .jobj [("league", .jobj [("name", .jstr "LFL")]),
         ("serie", .jobj [("full_name", .jstr "Summer 2024")])]

def rawWorlds : JVal := .jobj [("tournament", .jobj [("name", .jstr "Worlds")])]

def oldTs : String := "2024-01-01T00:00:00+01:00"

def nowTs : String := "2024-01-02T06:00:00+01:00"

/-- A tracked not-started match (id 7). -/
def mNS7 : TrackedMatch :=
  mkSimple (.jint 7) (.jstr "not_started") (.jstr "À venir") "t0"

/-- Pre-update state for the last-refresh bug: one tracked match, an old
`_last_refresh`, and a stale cache file about to be rewritten. -/
def stC1 : EngineState :=
  { tracked := [mNS7], lastRefresh := some oldTs,
    store := { «matches» := [], last_refresh := none } }

/-- The state `update_scores` actually produces from `stC1`: the match list
is saved, but both the in-memory and the persisted `last_refresh` still hold
the old timestamp. -/
def stC1' : EngineState := mkState [mNS7] (some oldTs)

/-- A tracked running match (id 1). -/
def mR1 : TrackedMatch :=
  mkSimple (.jint 1) (.jstr "running") (.jstr "En cours") "t0"

/-- A by-id response claiming a different id (2) and still running. -/
def rawB6 : JVal := .jobj [("id", .jint 2), ("status", .jstr "running")]

/-- A by-id response for id 2 claiming id 3, finished. -/
def rawC6 : JVal := .jobj [("id", .jint 3), ("status", .jstr "finished")]

/-- A by-id fetch whose responses do not carry the queried ids. -/
def byId6 : JVal → Option JVal := fun q =>
  match q with
  | .jint 1 => some rawB6
  | .jint 2 => some rawC6
  | _ => none

def st6 : EngineState := mkState [mR1] (some oldTs)

def st6a : EngineState :=
  mkState [mkSimple (.jint 2) (.jstr "running") (.jstr "En cours") "u1"] (some oldTs)

def st6b : EngineState :=
  mkState [mkSimple (.jint 3) (.jstr "finished") (.jstr "Terminé") "u2"] (some oldTs)

/-- An honest finished by-id response for id 1. -/
def rawFin1 : JVal := .jobj [("id", .jint 1), ("status", .jstr "finished")]

def byIdW : JVal → Option JVal := fun q =>
  match q with
  | .jint n => if n = 1 then some rawFin1 else none
  | _ => none

def stW6a : EngineState :=
  mkState [mkSimple (.jint 1) (.jstr "finished") (.jstr "Terminé") "w1"] (some oldTs)

/-- Raw upcoming record with id 1, running status. -/
def rawA7 : JVal := .jobj [("id", .jint 1), ("status", .jstr "running")]

/-- State after `refresh_matches_list` on `[rawA7]` at time `tR`. -/
def stR7 : EngineState :=
  mkState [mkSimple (.jint 1) (.jstr "running") (.jstr "En cours") "tR"] (some "tR")

/-- State after one update cycle on `stR7` with `byId6` (the slot id became
2, no longer the id refresh put at position 0). -/
def stU7 : EngineState :=
  mkState [mkSimple (.jint 2) (.jstr "running") (.jstr "En cours") "u1"] (some "tR")

/-- Raw upcoming record with id 1 and no status. -/
def rawD8 : JVal := .jobj [("id", .jint 1)]

/-- State after refreshing on a feed that lists the same match twice. -/
def stDup8 : EngineState :=
  mkState [mkSimple (.jint 1) .jnull .jnull "tR", mkSimple (.jint 1) .jnull .jnull "tR"]
    (some "tR")

def rawW8a : JVal := .jobj [("id", .jint 1)]

def rawW8b : JVal := .jobj [("id", .jint 2)]

/-- State after refreshing on a two-element feed with distinct ids. -/
def stW8 : EngineState :=
  mkState [mkSimple (.jint 1) .jnull .jnull "tR", mkSimple (.jint 2) .jnull .jnull "tR"]
    (some "tR")

/-- A fresh running record for slot id 1 (appears in the running feed). -/
def rawF2 : JVal := .jobj [("id", .jint 1), ("status", .jstr "running")]

def byIdNone : JVal → Option JVal := fun _ => none

/-- A finished match with two teams and scores, as `_normalize` would build
it. -/
def m9a : TrackedMatch :=
  { id := .jint 21, tournament := some "LFL - Summer 2024",
    teams := [ { id := .jint 101, name := .jstr "G2", logo := .jnull, score := .jint 3 },
               { id := .jint 102, name := .jstr "FNC", logo := .jnull, score := .jint 1 } ],
    begin_at_utc := .jstr "2024-06-01T15:00:00Z",
    begin_at_local := some "2024-06-01T17:00:00+02:00",
    begin_at_local_human := some "01/06 17:00",
    status := .jstr "finished", status_label := .jstr "Terminé",
    best_of := .jint 5, last_update := "t0" }

/-- A not-started match with only one announced team. -/
def m9b : TrackedMatch :=
  { id := .jint 22, tournament := some "Worlds",
    teams := [ { id := .jint 103, name := .jstr "T1", logo := .jnull, score := .jnull } ],
    begin_at_utc := .jstr "2024-06-02T15:00:00Z",
    begin_at_local := none, begin_at_local_human := none,
    status := .jstr "not_started", status_label := .jstr "À venir",
    best_of := .jint 3, last_update := "t0" }

def st9 : EngineState := mkState [m9a, m9b] (some oldTs)

/-- An honest still-running by-id response function for id 1. -/
def byIdW2 : JVal → Option JVal := fun q =>
  match q with
  | .jint n => if n = 1 then some rawF2 else none
  | _ => none

/-- State after one update cycle on `st6` with an empty running feed and
`byIdW2` (the slot stays running, renormalized at `v1`). -/
def stV1 : EngineState :=
  mkState [mkSimple (.jint 1) (.jstr "running") (.jstr "En cours") "v1"] (some oldTs)

/-- State after a second identical update cycle at `v2`. -/
def stV2 : EngineState :=
  mkState [mkSimple (.jint 1) (.jstr "running") (.jstr "En cours") "v2"] (some oldTs)

/-- State after one update cycle on `st6` with `[rawF2]` as the running
feed. -/
def st2b : EngineState :=
  mkState [mkSimple (.jint 1) (.jstr "running") (.jstr "En cours") "u1"] (some oldTs)

/-! ## Generic lemmas about the `Except` plumbing -/

@[simp] theorem pure_eq_ok (a : α) : (pure a : Except PyErr α) = .ok a := rfl

@[simp] theorem ok_bind (a : α) (f : α → Except PyErr β) :
    (Except.ok a >>= f) = f a := rfl

@[simp] theorem error_bind (e : PyErr) (f : α → Except PyErr β) :
    ((Except.error e : Except PyErr α) >>= f) = .error e := rfl

theorem bind_ok_iff {x : Except PyErr α} {f : α → Except PyErr β} {b : β} :
    (x >>= f) = .ok b ↔ ∃ a, x = .ok a ∧ f a = .ok b := by
  cases x <;> simp

theorem exceptMapM_cons (f : α → Except PyErr β) (x : α) (xs : List α) :
    exceptMapM f (x :: xs) =
      (f x >>= fun y => exceptMapM f xs >>= fun ys => pure (y :: ys)) := rfl

theorem exceptMapM_cons_ok {f : α → Except PyErr β} {x : α} {xs : List α} {ys : List β} :
    exceptMapM f (x :: xs) = .ok ys ↔
      ∃ y ys', f x = .ok y ∧ exceptMapM f xs = .ok ys' ∧ ys = y :: ys' := by
  rw [exceptMapM_cons, bind_ok_iff]
  constructor
  · rintro ⟨y, hy, h⟩
    rw [bind_ok_iff] at h
    obtain ⟨ys', hys', h⟩ := h
    simp only [pure_eq_ok, Except.ok.injEq] at h
    exact ⟨y, ys', hy, hys', h.symm⟩
  · rintro ⟨y, ys', hy, hys', rfl⟩
    refine ⟨y, hy, ?_⟩
    rw [bind_ok_iff]
    exact ⟨ys', hys', rfl⟩

theorem exceptMapM_length {f : α → Except PyErr β} :
    ∀ {xs : List α} {ys : List β}, exceptMapM f xs = .ok ys → ys.length = xs.length := by
  intro xs
  induction xs with
  | nil => intro ys h; simp only [exceptMapM, Except.ok.injEq] at h; subst h; rfl
  | cons x xs ih =>
    intro ys h
    rw [exceptMapM_cons_ok] at h
    obtain ⟨y, ys', _, h2, rfl⟩ := h
    simp [ih h2]

theorem exceptMapM_get {f : α → Except PyErr β} :
    ∀ {xs : List α} {ys : List β}, exceptMapM f xs = .ok ys →
      ∀ i (hi : i < xs.length) (hi' : i < ys.length),
        f (xs.get ⟨i, hi⟩) = .ok (ys.get ⟨i, hi'⟩) := by
  intro xs
  induction xs with
  | nil => intro ys h i hi; exact absurd hi (by simp)
  | cons x xs ih =>
    intro ys h i hi hi'
    rw [exceptMapM_cons_ok] at h
    obtain ⟨y, ys', h1, h2, rfl⟩ := h
    cases i with
    | zero => simpa using h1
    | succ j => exact ih h2 j (by simpa using hi) (by simpa using hi')

theorem exceptMapM_ok_of_forall {f : α → Except PyErr β} :
    ∀ {xs : List α}, (∀ x ∈ xs, ∃ y, f x = .ok y) →
      ∃ ys, exceptMapM f xs = .ok ys := by
  intro xs
  induction xs with
  | nil => intro _; exact ⟨[], rfl⟩
  | cons x xs ih =>
    intro h
    obtain ⟨y, hy⟩ := h x (by simp)
    obtain ⟨ys, hys⟩ := ih (fun a ha => h a (by simp [ha]))
    exact ⟨y :: ys, by rw [exceptMapM_cons_ok]; exact ⟨y, ys, hy, hys, rfl⟩⟩

theorem exceptFoldlM_inv {f : β → α → Except PyErr β} {P : β → Prop}
    (hstep : ∀ acc x acc', P acc → f acc x = .ok acc' → P acc') :
    ∀ {l : List α} {acc acc' : β}, P acc → exceptFoldlM f acc l = .ok acc' → P acc' := by
  intro l
  induction l with
  | nil =>
    intro acc acc' hP h
    simp only [exceptFoldlM, Except.ok.injEq] at h
    exact h ▸ hP
  | cons x xs ih =>
    intro acc acc' hP h
    unfold exceptFoldlM at h
    rw [bind_ok_iff] at h
    obtain ⟨acc1, h1, h2⟩ := h
    exact ih (hstep acc x acc1 hP h1) h2

theorem exceptFoldlM_ok_of_forall {f : β → α → Except PyErr β} :
    ∀ {l : List α}, (∀ x ∈ l, ∀ acc, ∃ acc', f acc x = .ok acc') →
      ∀ acc, ∃ acc', exceptFoldlM f acc l = .ok acc' := by
  intro l
  induction l with
  | nil => intro _ acc; exact ⟨acc, rfl⟩
  | cons x xs ih =>
    intro h acc
    obtain ⟨acc1, h1⟩ := h x (by simp) acc
    obtain ⟨acc', h2⟩ := ih (fun a ha => h a (by simp [ha])) acc1
    refine ⟨acc', ?_⟩
    unfold exceptFoldlM
    rw [bind_ok_iff]
    exact ⟨acc1, h1, h2⟩

/-! ## Claim C3: Refresh is a no-op on an empty fetch -/

/-- C3: for every prior engine state (tracked set, `last_refresh`, and
persisted store, non-empty or not), a `refresh_matches_list` cycle whose
upcoming fetch returned zero matches returns the state completely
unchanged. -/
theorem refresh_empty_fetch_noop (parseT : String → Option (String × String))
    (now : String) (st : EngineState) :
    refresh_matches_list parseT now [] st = .ok st := rfl

/-! ## Claim C10: the compact endpoint reads only the first five slots -/

/-- C10: `GET /lol/matches/compact` depends only on the first five entries of
the tracked set — replacing the tracked list by its first five entries leaves
the response unchanged, so entries beyond position 4 have no effect. -/
theorem compact_uses_first_five_only (st : EngineState) :
    get_matches_compact st =
      get_matches_compact { st with tracked := st.tracked.take 5 } := by
  obtain ⟨tr, lr, sto⟩ := st
  cases tr with
  | nil => rfl
  | cons m tr' =>
    show get_matches_compact ⟨m :: tr', lr, sto⟩ =
      get_matches_compact ⟨(m :: tr').take 5, lr, sto⟩
    unfold get_matches_compact
    simp [List.take_take]

/-! ## Claim C1: the update cycle and the `last_refresh` timestamp -/

/-- C1 (refuted — source bug): after `update_scores` on a non-empty tracked
set, the full match list is persisted, but the `last_refresh` exposed by the
engine state, `GET /healthz`, `GET /lol/matches` and the persisted store is
STILL the old timestamp, not the time of the update cycle: the function
declares `global _tracked_matches` but not `_last_refresh`, so its assignment
to `_last_refresh` creates a discarded local variable. -/
theorem update_scores_persists_stale_last_refresh :
    update_scores noParse nowTs [] byIdNone stC1 = .ok stC1' ∧
    stC1'.store.«matches» = stC1'.tracked ∧
    stC1'.lastRefresh = some oldTs ∧
    (healthz stC1').last_refresh = some oldTs ∧
    (get_matches stC1').last_refresh = some oldTs ∧
    stC1'.store.last_refresh = some oldTs ∧
    ¬ oldTs = nowTs :=
  ⟨rfl, rfl, rfl, rfl, rfl, rfl, by decide⟩

/-! ## Claim C5: tournament string derivation -/

/-- C5: the normalizer's tournament string joins the league name and the
serie name (full name falling back to season) with `" - "`; only when both
are missing does it fall back to the raw tournament's own name.  In
particular `league.name = "LFL"` and `serie.full_name = "Summer 2024"` yield
`"LFL - Summer 2024"`, and a record with only `tournament.name = "Worlds"`
yields `"Worlds"`. -/
theorem tournament_derivation :
    (∀ fs L S a b, jget fs "league" = .jobj L → jget L "name" = .jstr a →
       a ≠ "" → jget fs "serie" = .jobj S →
       pyOr (jget S "full_name") (jget S "season") = .jstr b → b ≠ "" →
       tournamentOf (.jobj fs) = .ok (some (a ++ " - " ++ b))) ∧
    (∀ fs T c, jget fs "league" = .jnull → jget fs "serie" = .jnull →
       jget fs "tournament" = .jobj T → jget T "name" = .jstr c → c ≠ "" →
       tournamentOf (.jobj fs) = .ok (some c)) ∧
    tournamentOf rawLFL = .ok (some "LFL - Summer 2024") ∧
    tournamentOf rawWorlds = .ok (some "Worlds") := by
  refine ⟨?_, ?_, rfl, rfl⟩
  · intro fs L S a b hlg hln ha hsr hsn hb
    cases L with
    | nil => simp [jget] at hln
    | cons p L' =>
      cases S with
      | nil => simp [jget, pyOr, pyTruthy] at hsn
      | cons q S' =>
        unfold tournamentOf tournamentParts leaguePart seriePart
        simp [pyGet, hlg, hln, hsr, hsn, pyTruthy, isObj, ha, hb, pyJoinStrs,
          strList?, joinSep]
  · intro fs T c hlg hsr ht htn hc
    cases T with
    | nil => simp [jget] at htn
    | cons p T' =>
      unfold tournamentOf tournamentParts leaguePart seriePart tournFallback
      simp [pyGet, hlg, hsr, ht, htn, pyTruthy, isObj, hc, pyJoinStrs,
        strList?, joinSep]

/-- Concrete application of `tournament_derivation`'s first clause at the
LFL/Summer 2024 fixture. -/
theorem tournament_derivation_app :
    tournamentOf rawLFL = .ok (some "LFL - Summer 2024") := by
  have h := tournament_derivation.1
    [("league", .jobj [("name", .jstr "LFL")]),
     ("serie", .jobj [("full_name", .jstr "Summer 2024")])]
    [("name", .jstr "LFL")] [("full_name", .jstr "Summer 2024")]
    "LFL" "Summer 2024" rfl rfl (by decide) rfl rfl (by decide)
  simpa using h


/-! ## Claim C4: totality of the normalizer -/

theorem isOk_iff {x : Except PyErr α} : x.isOk = true ↔ ∃ a, x = .ok a := by
  cases x <;> simp [Except.isOk, Except.toBool]

theorem leaguePart_ok {fs : List (String × JVal)} (h : wfLeague fs = true) :
    ∃ ps, leaguePart (.jobj fs) = .ok ps ∧ ps.all isStr = true := by
  unfold wfLeague at h
  unfold leaguePart
  simp only [pyGet, ok_bind]
  cases hlg : jget fs "league" with
  | jnull => exact ⟨[], by simp [isObj], rfl⟩
  | jbool b => exact ⟨[], by simp [isObj], rfl⟩
  | jint n => exact ⟨[], by simp [isObj], rfl⟩
  | jstr s => exact ⟨[], by simp [isObj], rfl⟩
  | jarr xs => exact ⟨[], by simp [isObj], rfl⟩
  | jobj lfs =>
    rw [hlg] at h
    cases lfs with
    | nil => exact ⟨[], by simp [pyTruthy], rfl⟩
    | cons p lfs' =>
      by_cases ht : pyTruthy (jget (p :: lfs') "name") = true
      · have hstr : (jget (p :: lfs') "name").isStr = true := by
          simp only [strOrFalsy, ht, Bool.not_true, Bool.false_or] at h
          exact h
        refine ⟨[jget (p :: lfs') "name"], ?_, ?_⟩
        · rw [if_pos (by simp [pyTruthy, isObj])]
          simp only [pyGet, ok_bind]
          rw [if_pos ht]
          rfl
        · simp [hstr]
      · refine ⟨[], ?_, rfl⟩
        rw [if_pos (by simp [pyTruthy, isObj])]
        simp only [pyGet, ok_bind]
        rw [if_neg ht]
        rfl

theorem seriePart_ok {fs : List (String × JVal)} (h : wfSerie fs = true) :
    ∃ ps, seriePart (.jobj fs) = .ok ps ∧ ps.all isStr = true := by
  unfold wfSerie at h
  unfold seriePart
  simp only [pyGet, ok_bind]
  cases hsr : jget fs "serie" with
  | jnull => exact ⟨[], by simp [isObj], rfl⟩
  | jbool b => exact ⟨[], by simp [isObj], rfl⟩
  | jint n => exact ⟨[], by simp [isObj], rfl⟩
  | jstr s => exact ⟨[], by simp [isObj], rfl⟩
  | jarr xs => exact ⟨[], by simp [isObj], rfl⟩
  | jobj sfs =>
    rw [hsr] at h
    cases sfs with
    | nil => exact ⟨[], by simp [pyTruthy], rfl⟩
    | cons q sfs' =>
      by_cases ht :
          pyTruthy (pyOr (jget (q :: sfs') "full_name") (jget (q :: sfs') "season")) = true
      · have hstr :
            (pyOr (jget (q :: sfs') "full_name") (jget (q :: sfs') "season")).isStr = true := by
          simp only [strOrFalsy, ht, Bool.not_true, Bool.false_or] at h
          exact h
        refine ⟨[pyOr (jget (q :: sfs') "full_name") (jget (q :: sfs') "season")], ?_, ?_⟩
        · rw [if_pos (by simp [pyTruthy, isObj])]
          simp only [pyGet, ok_bind]
          rw [if_pos ht]
          rfl
        · simp [hstr]
      · refine ⟨[], ?_, rfl⟩
        rw [if_pos (by simp [pyTruthy, isObj])]
        simp only [pyGet, ok_bind]
        rw [if_neg ht]
        rfl

theorem tournFallback_ok {fs : List (String × JVal)} (h : wfTournN fs = true) :
    ∃ ps, tournFallback (.jobj fs) = .ok ps ∧ ps.all isStr = true := by
  unfold wfTournN at h
  unfold tournFallback
  simp only [pyGet, ok_bind]
  cases htt : jget fs "tournament" with
  | jnull => exact ⟨[], by simp [isObj], rfl⟩
  | jbool b => exact ⟨[], by simp [isObj], rfl⟩
  | jint n => exact ⟨[], by simp [isObj], rfl⟩
  | jstr s => exact ⟨[], by simp [isObj], rfl⟩
  | jarr xs => exact ⟨[], by simp [isObj], rfl⟩
  | jobj tfs =>
    rw [htt] at h
    cases tfs with
    | nil => exact ⟨[], by simp [pyTruthy], rfl⟩
    | cons p tfs' =>
      by_cases ht : pyTruthy (jget (p :: tfs') "name") = true
      · have hstr : (jget (p :: tfs') "name").isStr = true := by
          simp only [strOrFalsy, ht, Bool.not_true, Bool.false_or] at h
          exact h
        refine ⟨[jget (p :: tfs') "name"], ?_, ?_⟩
        · rw [if_pos (by simp [pyTruthy, isObj])]
          simp only [pyGet, ok_bind]
          rw [if_pos ht]
          rfl
        · simp [hstr]
      · refine ⟨[], ?_, rfl⟩
        rw [if_pos (by simp [pyTruthy, isObj])]
        simp only [pyGet, ok_bind]
        rw [if_neg ht]
        rfl

theorem tournamentParts_ok {fs : List (String × JVal)} (hl : wfLeague fs = true)
    (hs : wfSerie fs = true) (ht : wfTournN fs = true) :
    ∃ ps, tournamentParts (.jobj fs) = .ok ps ∧ ps.all isStr = true := by
  obtain ⟨lp, hlp, hlps⟩ := leaguePart_ok hl
  obtain ⟨sp, hsp, hsps⟩ := seriePart_ok hs
  obtain ⟨tp, htp, htps⟩ := tournFallback_ok ht
  unfold tournamentParts
  simp only [hlp, hsp, ok_bind, pure_eq_ok]
  by_cases he : (lp ++ sp).isEmpty
  · exact ⟨tp, by simp [he, htp], htps⟩
  · refine ⟨lp ++ sp, by simp [he], ?_⟩
    simp only [List.all_append, hlps, hsps, Bool.and_self]

theorem strList?_ok {ps : List JVal} (h : ps.all isStr = true) :
    ∃ ss, strList? ps = some ss := by
  induction ps with
  | nil => exact ⟨[], rfl⟩
  | cons v ps ih =>
    simp only [List.all_cons, Bool.and_eq_true] at h
    obtain ⟨ss, hss⟩ := ih h.2
    cases v with
    | jstr str => exact ⟨str :: ss, by simp [strList?, hss]⟩
    | jnull => exact absurd h.1 (by simp [isStr])
    | jbool b => exact absurd h.1 (by simp [isStr])
    | jint n => exact absurd h.1 (by simp [isStr])
    | jarr xs => exact absurd h.1 (by simp [isStr])
    | jobj ofs => exact absurd h.1 (by simp [isStr])

theorem tournamentOf_ok {fs : List (String × JVal)} (hl : wfLeague fs = true)
    (hs : wfSerie fs = true) (ht : wfTournN fs = true) :
    ∃ t, tournamentOf (.jobj fs) = .ok t := by
  obtain ⟨ps, hps, hstr⟩ := tournamentParts_ok hl hs ht
  obtain ⟨ss, hss⟩ := strList?_ok hstr
  unfold tournamentOf
  simp only [hps, ok_bind]
  by_cases he : ps.isEmpty
  · exact ⟨none, by simp [he]⟩
  · exact ⟨some (joinSep " - " ss), by simp [he, pyJoinStrs, hss]⟩

theorem insResult_ok {r : JVal} (h : wfResultEntry r = true)
    (acc : List (JVal × JVal)) : ∃ acc', insResult acc r = .ok acc' := by
  rw [← isOk_iff]
  unfold wfResultEntry at h
  cases r with
  | jnull => simp at h
  | jbool b => simp at h
  | jint n => simp at h
  | jstr s => simp at h
  | jarr xs => simp at h
  | jobj rfs =>
    simp only at h
    unfold insResult
    simp only [pyGet, ok_bind]
    by_cases hnn : (!(jget rfs "team_id").isNull && !(jget rfs "score").isNull) = true
    · rw [if_pos hnn, if_pos h]
      rfl
    · rw [if_neg hnn]
      rfl

theorem scoresMapOf_ok {fs : List (String × JVal)} (h : wfResults fs = true) :
    ∃ sm, scoresMapOf (.jobj fs) = .ok sm := by
  unfold wfResults at h
  unfold scoresMapOf
  simp only [pyGet, ok_bind]
  by_cases htr : pyTruthy (jget fs "results") = true
  · rw [if_pos htr]
    simp only [htr, Bool.not_true, Bool.false_or] at h
    cases hrs : jget fs "results" with
    | jnull => rw [hrs] at h; simp at h
    | jbool b => rw [hrs] at h; simp at h
    | jint n => rw [hrs] at h; simp at h
    | jstr s => rw [hrs] at h; simp at h
    | jobj ofs => rw [hrs] at h; simp at h
    | jarr items =>
      rw [hrs] at h
      simp only [List.all_eq_true] at h
      obtain ⟨sm, hsm⟩ :=
        exceptFoldlM_ok_of_forall (fun r hr acc => insResult_ok (h r hr) acc) []
      exact ⟨sm, by simp [pyIter, hsm]⟩
  · rw [if_neg htr]
    exact ⟨[], rfl⟩

theorem teamOf_ok {opp : JVal} (h : wfOppEntry opp = true)
    (sm : List (JVal × JVal)) : ∃ t, teamOf sm opp = .ok t := by
  rw [← isOk_iff]
  unfold wfOppEntry at h
  cases opp with
  | jnull => simp at h
  | jbool b => simp at h
  | jint n => simp at h
  | jstr s => simp at h
  | jarr xs => simp at h
  | jobj ofs =>
    simp only at h
    unfold teamOf
    by_cases hti : pyTruthy (jget ofs "opponent") = true
    · rw [if_pos hti] at h
      cases hin : jget ofs "opponent" with
      | jnull => rw [hin] at h; simp at h
      | jbool b => rw [hin] at h; simp at h
      | jint n => rw [hin] at h; simp at h
      | jstr s => rw [hin] at h; simp at h
      | jarr xs => rw [hin] at h; simp at h
      | jobj ifs =>
        rw [hin] at h
        simp only at h
        have htif : pyTruthy (.jobj ifs) = true := hin ▸ hti
        by_cases hse : sm.isEmpty
        · simp [isObj, pyGet, hin, htif, hse, Except.isOk, Except.toBool]
        · simp [isObj, pyGet, hin, htif, hse, h, Except.isOk, Except.toBool]
    · rw [if_neg hti] at h
      by_cases hse : sm.isEmpty
      · simp [isObj, pyGet, hti, hse, Except.isOk, Except.toBool]
      · simp [isObj, pyGet, hti, hse, h, Except.isOk, Except.toBool]

theorem teamsOf_ok {fs : List (String × JVal)} (h : wfOpps fs = true)
    (sm : List (JVal × JVal)) : ∃ ts, teamsOf (.jobj fs) sm = .ok ts := by
  unfold wfOpps at h
  unfold teamsOf
  simp only [pyGetD, ok_bind]
  cases hos : (fs.lookup "opponents").getD (.jarr []) with
  | jnull => rw [hos] at h; simp at h
  | jbool b => rw [hos] at h; simp at h
  | jint n => rw [hos] at h; simp at h
  | jstr s => rw [hos] at h; simp at h
  | jobj ofs => rw [hos] at h; simp at h
  | jarr items =>
    rw [hos] at h
    simp only [List.all_eq_true] at h
    obtain ⟨ts, hts⟩ :=
      exceptMapM_ok_of_forall (fun opp hopp => teamOf_ok (h opp hopp) sm)
    exact ⟨ts, by simp [pyIter, hts]⟩

theorem timesOf_ok (parseT : String → Option (String × String))
    (fs : List (String × JVal)) : ∃ tr, timesOf parseT (.jobj fs) = .ok tr := by
  rw [← isOk_iff]
  unfold timesOf
  simp only [pyGet, ok_bind]
  by_cases hb : pyTruthy (jget fs "begin_at") = true
  · rw [if_pos hb]
    cases jget fs "begin_at" with
    | jnull => rfl
    | jbool b => rfl
    | jint n => rfl
    | jarr xs => rfl
    | jobj ofs => rfl
    | jstr s =>
      cases hp : parseT s with
      | none => simp [hp, Except.isOk, Except.toBool]
      | some pr =>
        obtain ⟨iso, human⟩ := pr
        simp [hp, Except.isOk, Except.toBool]
  · rw [if_neg hb]
    rfl

theorem statusLabelOf_ok {s : JVal} (h : hashable s = true) :
    ∃ l, statusLabelOf s = .ok l := by
  unfold statusLabelOf
  rw [if_pos h]
  exact ⟨_, rfl⟩

theorem normalize_total {m : JVal} (h : wellFormedRaw m = true)
    (parseT : String → Option (String × String)) (now : String) :
    ∃ r, _normalize parseT now m = .ok r := by
  cases m with
  | jnull => simp [wellFormedRaw] at h
  | jbool b => simp [wellFormedRaw] at h
  | jint n => simp [wellFormedRaw] at h
  | jstr s => simp [wellFormedRaw] at h
  | jarr xs => simp [wellFormedRaw] at h
  | jobj fs =>
    simp only [wellFormedRaw, Bool.and_eq_true] at h
    obtain ⟨⟨⟨⟨⟨hl, hs⟩, ht⟩, hres⟩, hopp⟩, hstat⟩ := h
    obtain ⟨t, h1⟩ := tournamentOf_ok hl hs ht
    obtain ⟨sm, h2⟩ := scoresMapOf_ok hres
    obtain ⟨ts, h3⟩ := teamsOf_ok hopp sm
    obtain ⟨⟨utc, lcl, human⟩, h4⟩ := timesOf_ok parseT fs
    obtain ⟨lbl, h5⟩ := statusLabelOf_ok hstat
    rw [← isOk_iff]
    unfold _normalize
    simp only [h1, h2, h3, h4, ok_bind, pyGet, h5, pure_eq_ok]
    rfl

/-- C4 (counterexample): the normalizer is NOT total on arbitrary raw
records — an opponents entry of unexpected type (here the integer `1`,
which the `isinstance` guard leaves as `opp_obj` itself) makes
`opp_obj.get("id")` raise `AttributeError`, which `_normalize` does not
catch. -/
theorem normalize_raises_on_nonobject_opponent :
    _normalize noParse "t" (.jobj [("opponents", .jarr [.jint 1])]) =
      .error .attributeError := rfl

/-- C4 (amended): the normalizer is total and never raises on raw records of
the shape the provider serves (league/serie/tournament fields that are
objects with string-or-missing names when present, results a list of objects
with hashable team ids when non-empty, opponents a list of objects whose
truthy `opponent` wrapper is an object, status not a list/dict); on such
records missing fields degrade to null/defaults: a record with no fields at
all, and one with a malformed timestamp, empty opponents and missing
league/results, both normalize successfully with `None` local-time fields,
no tournament, and empty teams. -/
theorem normalize_total_on_wellformed :
    (∀ parseT now m, wellFormedRaw m = true →
       ∃ r, _normalize parseT now m = .ok r) ∧
    _normalize noParse "t" (.jobj []) = .ok (mkSimple .jnull .jnull .jnull "t") ∧
    _normalize noParse "t"
        (.jobj [("begin_at", .jstr "not-a-date"), ("opponents", .jarr []),
                ("status", .jstr "not_started")]) =
      .ok { id := .jnull, tournament := none, teams := [],
            begin_at_utc := .jstr "not-a-date", begin_at_local := none,
            begin_at_local_human := none, status := .jstr "not_started",
            status_label := .jstr "À venir", best_of := .jnull,
            last_update := "t" } :=
  ⟨fun parseT now _ h => normalize_total h parseT now, rfl, rfl⟩

/-- Application of `normalize_total_on_wellformed` at a concrete partial raw
record (league explicitly null, results null). -/
theorem normalize_total_on_wellformed_app :
    (_normalize noParse "tw" (.jobj [("league", .jnull), ("results", .jnull)])).isOk
      = true := by
  obtain ⟨r, hr⟩ := normalize_total_on_wellformed.1 noParse "tw"
    (.jobj [("league", .jnull), ("results", .jnull)]) (by decide)
  simp [hr, Except.isOk, Except.toBool]

/-! ## Claim C2: the per-slot behavior of `update_scores` -/

theorem update_scores_ok_anatomy {parseT : String → Option (String × String)}
    {now : String} {running : List JVal} {byId : JVal → Option JVal}
    {st st' : EngineState}
    (h : update_scores parseT now running byId st = .ok st') :
    (st.tracked = [] ∧ st' = st) ∨
    (st.tracked ≠ [] ∧ ∃ mp tr', buildRunningMap running = .ok mp ∧
      exceptMapM (updateSlot parseT now mp byId) st.tracked = .ok tr' ∧
      st' = { tracked := tr', lastRefresh := st.lastRefresh,
              store := { «matches» := tr', last_refresh := st.lastRefresh } }) := by
  unfold update_scores at h
  by_cases he : st.tracked.isEmpty
  · rw [if_pos he] at h
    left
    refine ⟨by simpa using he, ?_⟩
    injection h with h
    exact h.symm
  · rw [if_neg he] at h
    right
    refine ⟨by simpa using he, ?_⟩
    rw [bind_ok_iff] at h
    obtain ⟨mp, hmp, h⟩ := h
    rw [bind_ok_iff] at h
    obtain ⟨tr', htr, h⟩ := h
    simp only [pure_eq_ok, Except.ok.injEq] at h
    exact ⟨mp, tr', hmp, htr, h.symm⟩

theorem updateSlot_spec {parseT : String → Option (String × String)} {now : String}
    {mp : List (JVal × JVal)} {byId : JVal → Option JVal} {m m' : TrackedMatch}
    (h : updateSlot parseT now mp byId m = .ok m') :
    SlotSpec parseT now mp byId m m' := by
  unfold updateSlot at h
  by_cases hh : hashable m.id = true
  · rw [if_pos hh] at h
    cases hg : dictGet? mp m.id with
    | some fresh =>
      rw [hg] at h
      have h1 : _normalize parseT now fresh = .ok m' := h
      refine ⟨?_, ?_, ?_⟩
      · intro fresh' hf
        rw [hg] at hf
        injection hf with e
        rw [← e]
        exact h1
      · intro hnone _
        rw [hg] at hnone
        simp at hnone
      · intro hnone _
        rw [hg] at hnone
        simp at hnone
    | none =>
      rw [hg] at h
      have h1 :
          (if statusIsRunning m.status then
            match byId m.id with
            | some d => _normalize parseT now d
            | none => pure m
          else pure m) = .ok m' := h
      by_cases hr : statusIsRunning m.status = true
      · rw [if_pos hr] at h1
        cases hb : byId m.id with
        | some d =>
          rw [hb] at h1
          have h2 : _normalize parseT now d = .ok m' := h1
          refine ⟨?_, fun _ _ => ⟨?_, ?_⟩, ?_⟩
          · intro fresh hf
            rw [hg] at hf
            simp at hf
          · intro d' hd'
            rw [hb] at hd'
            injection hd' with e
            rw [← e]
            exact h2
          · intro hbn
            rw [hb] at hbn
            simp at hbn
          · intro _ hrf
            rw [hr] at hrf
            simp at hrf
        | none =>
          rw [hb] at h1
          have h2 : Except.ok (ε := PyErr) m = .ok m' := h1
          injection h2 with e
          refine ⟨?_, fun _ _ => ⟨?_, ?_⟩, ?_⟩
          · intro fresh hf
            rw [hg] at hf
            simp at hf
          · intro d' hd'
            rw [hb] at hd'
            simp at hd'
          · intro _
            exact e.symm
          · intro _ hrf
            rw [hr] at hrf
            simp at hrf
      · rw [if_neg hr] at h1
        have h2 : Except.ok (ε := PyErr) m = .ok m' := h1
        injection h2 with e
        refine ⟨?_, ?_, ?_⟩
        · intro fresh hf
          rw [hg] at hf
          simp at hf
        · intro _ hrt
          rw [hrt] at hr
          simp at hr
        · intro _ _
          exact e.symm
  · rw [if_neg hh] at h
    simp at h

/-- C2: in a successful `update_scores` cycle, every tracked slot (by
position) follows the spec's three-way rule with respect to the
`running_by_id` map built from the running-matches fetch: present in the
map → full overwrite with the normalized fresh record; absent but stored
status `"running"` → overwrite with the normalized by-id response when one
is returned, unchanged when none is; anything else → untouched. -/
theorem update_scores_slot_behavior {parseT : String → Option (String × String)}
    {now : String} {running : List JVal} {byId : JVal → Option JVal}
    {st st' : EngineState} {mp : List (JVal × JVal)}
    (hmp : buildRunningMap running = .ok mp)
    (hupd : update_scores parseT now running byId st = .ok st') :
    ∀ i (hi : i < st.tracked.length) (hi' : i < st'.tracked.length),
      SlotSpec parseT now mp byId (st.tracked.get ⟨i, hi⟩)
        (st'.tracked.get ⟨i, hi'⟩) := by
  intro i hi hi'
  rcases update_scores_ok_anatomy hupd with ⟨hnil, rfl⟩ | ⟨hne, mp2, tr', hmp2, htr, rfl⟩
  · rw [hnil] at hi
    exact absurd hi (by simp)
  · rw [hmp] at hmp2
    injection hmp2 with e
    subst e
    exact updateSlot_spec (exceptMapM_get htr i hi hi')

/-- Application of `update_scores_slot_behavior` to a one-match state whose
match appears in the running feed. -/
theorem update_scores_slot_behavior_app :
    SlotSpec noParse "u1" [(.jint 1, rawF2)] byIdNone mR1
      (mkSimple (.jint 1) (.jstr "running") (.jstr "En cours") "u1") := by
  have h := @update_scores_slot_behavior noParse "u1" [rawF2] byIdNone
    st6 st2b [(.jint 1, rawF2)] rfl rfl 0 (by decide) (by decide)
  exact h

/-! ## Claim C7: positional / id preservation of `update_scores` -/

theorem keyBeq_refl {k : JVal} (hk : hashable k = true) : keyBeq k k = true := by
  cases k <;> simp_all [keyBeq, canonS, hashable]

theorem keyBeq_iff_canon {a b : JVal} (ha : hashable a = true)
    (hb : hashable b = true) : keyBeq a b = true ↔ canonS a = canonS b := by
  cases a <;> cases b <;> simp_all [keyBeq, canonS, hashable]

theorem keyBeq_congr {x y : JVal} (hxy : canonS x = canonS y) (k : JVal) :
    keyBeq k x = keyBeq k y := by
  unfold keyBeq
  rw [hxy]

theorem dictGet?_congr {x y : JVal} (hxy : canonS x = canonS y)
    (mp : List (JVal × JVal)) : dictGet? mp x = dictGet? mp y := by
  unfold dictGet?
  have he : (fun p : JVal × JVal => keyBeq p.1 x) = (fun p => keyBeq p.1 y) :=
    funext fun p => keyBeq_congr hxy p.1
  rw [he]

theorem dictGet?_some {mp : List (JVal × JVal)} {k v : JVal}
    (h : dictGet? mp k = some v) :
    ∃ k', (k', v) ∈ mp ∧ keyBeq k' k = true := by
  unfold dictGet? at h
  cases hf : mp.find? (fun p => keyBeq p.1 k) with
  | none => rw [hf] at h; simp at h
  | some p =>
    rw [hf] at h
    simp at h
    have hm := List.mem_of_find?_eq_some hf
    have hp := List.find?_some hf
    refine ⟨p.1, ?_, by simpa using hp⟩
    rw [← h]
    simpa using hm

theorem dictInsert_mem {mp : List (JVal × JVal)} {k v : JVal} {p : JVal × JVal}
    (h : p ∈ dictInsert mp k v) :
    p ∈ mp ∨ (∃ q ∈ mp, keyBeq q.1 k = true ∧ p = (q.1, v)) ∨ p = (k, v) := by
  unfold dictInsert at h
  by_cases ha : mp.any (fun q => keyBeq q.1 k) = true
  · rw [if_pos ha] at h
    obtain ⟨q, hq, hpq⟩ := List.mem_map.mp h
    by_cases hk : keyBeq q.1 k = true
    · rw [if_pos hk] at hpq
      exact Or.inr (Or.inl ⟨q, hq, hk, hpq.symm⟩)
    · rw [if_neg hk] at hpq
      exact Or.inl (hpq ▸ hq)
  · rw [if_neg ha] at h
    rcases List.mem_append.mp h with hm | hm
    · exact Or.inl hm
    · exact Or.inr (Or.inr (by simpa using hm))

theorem buildRunningMap_inv {running : List JVal} {mp : List (JVal × JVal)}
    (h : buildRunningMap running = .ok mp) : MapInv mp := by
  refine exceptFoldlM_inv (P := MapInv) ?_ (by intro p hp; simp at hp) h
  intro acc r acc' hP hstep
  unfold insRunning at hstep
  rw [bind_ok_iff] at hstep
  obtain ⟨k, hk, h2⟩ := hstep
  by_cases hh : hashable k = true
  · rw [if_pos hh] at h2
    injection h2 with h2
    subst h2
    intro p hp
    rcases dictInsert_mem hp with hm | ⟨q, hq, hkb, rfl⟩ | rfl
    · exact hP p hm
    · exact ⟨(hP q hq).1, k, hk, hh, hkb⟩
    · exact ⟨hh, k, hk, hh, keyBeq_refl hh⟩
  · rw [if_neg hh] at h2
    simp at h2

theorem normalize_fields {parseT : String → Option (String × String)}
    {now : String} {v : JVal} {r : TrackedMatch}
    (h : _normalize parseT now v = .ok r) :
    pyGet v "id" = .ok r.id ∧ pyGet v "status" = .ok r.status ∧
      r.last_update = now ∧
      ∀ now', _normalize parseT now' v = .ok { r with last_update := now' } := by
  unfold _normalize at h
  rw [bind_ok_iff] at h
  obtain ⟨t, h1, h⟩ := h
  rw [bind_ok_iff] at h
  obtain ⟨sm, h2, h⟩ := h
  rw [bind_ok_iff] at h
  obtain ⟨ts, h3, h⟩ := h
  rw [bind_ok_iff] at h
  obtain ⟨tr, h4, h⟩ := h
  obtain ⟨utc, lcl, human⟩ := tr
  have h5 : (do
      let status ← pyGet v "status"
      let label ← statusLabelOf status
      let id ← pyGet v "id"
      let ng ← pyGet v "number_of_games"
      let mt ← pyGet v "match_type"
      pure { id := id, tournament := t, teams := ts,
             begin_at_utc := utc, begin_at_local := lcl,
             begin_at_local_human := human, status := status,
             status_label := label, best_of := pyOr ng mt,
             last_update := now } : Except PyErr TrackedMatch) = .ok r := h
  rw [bind_ok_iff] at h5
  obtain ⟨status, hs, h5⟩ := h5
  rw [bind_ok_iff] at h5
  obtain ⟨label, hl, h5⟩ := h5
  rw [bind_ok_iff] at h5
  obtain ⟨idv, hid, h5⟩ := h5
  rw [bind_ok_iff] at h5
  obtain ⟨ng, hng, h5⟩ := h5
  rw [bind_ok_iff] at h5
  obtain ⟨mt, hmt, h5⟩ := h5
  simp only [pure_eq_ok, Except.ok.injEq] at h5
  subst h5
  refine ⟨hid, hs, rfl, ?_⟩
  intro now'
  unfold _normalize
  simp only [h1, h2, h3, h4, ok_bind]
  simp only [hs, hl, hid, hng, hmt, ok_bind, pure_eq_ok]

theorem updateSlot_canon_id {parseT : String → Option (String × String)}
    {now : String} {mp : List (JVal × JVal)} {byId : JVal → Option JVal}
    {m m' : TrackedMatch} (hinv : MapInv mp) (hhon : byIdHonest byId)
    (h : updateSlot parseT now mp byId m = .ok m') :
    canonS m'.id = canonS m.id := by
  unfold updateSlot at h
  by_cases hh : hashable m.id = true
  · rw [if_pos hh] at h
    cases hg : dictGet? mp m.id with
    | some fresh =>
      rw [hg] at h
      have h1 : _normalize parseT now fresh = .ok m' := h
      obtain ⟨k', hk', hkb⟩ := dictGet?_some hg
      obtain ⟨hhk, k2, hid2, hhk2, hkb2⟩ := hinv _ hk'
      have hid := (normalize_fields h1).1
      rw [hid2] at hid
      injection hid with e
      have e1 : canonS k' = canonS k2 := (keyBeq_iff_canon hhk hhk2).mp hkb2
      have e2 : canonS k' = canonS m.id := (keyBeq_iff_canon hhk hh).mp hkb
      rw [← e, ← e1, e2]
    | none =>
      rw [hg] at h
      have h1 :
          (if statusIsRunning m.status then
            match byId m.id with
            | some d => _normalize parseT now d
            | none => pure m
          else pure m) = .ok m' := h
      by_cases hr : statusIsRunning m.status = true
      · rw [if_pos hr] at h1
        cases hb : byId m.id with
        | some d =>
          rw [hb] at h1
          have h2 : _normalize parseT now d = .ok m' := h1
          have hid := (normalize_fields h2).1
          rw [hhon _ _ hb] at hid
          injection hid with e
          rw [← e]
        | none =>
          rw [hb] at h1
          have h2 : Except.ok (ε := PyErr) m = .ok m' := h1
          injection h2 with e
          rw [← e]
      · rw [if_neg hr] at h1
        have h2 : Except.ok (ε := PyErr) m = .ok m' := h1
        injection h2 with e
        rw [← e]
  · rw [if_neg hh] at h
    simp at h

/-- C7 (amended): a successful `update_scores` cycle never changes the number
or positions of tracked entries (each slot is rewritten strictly in place),
and — provided every by-id fetch response carries the queried id, as the
provider's exact-id filter guarantees — the id stored at each position is
unchanged (up to Python `==`) by every update cycle, hence stays the id the
most recent refresh put there.  Without that proviso the unconditional claim
is false (see the counterexample). -/
theorem update_scores_preserves_positions {parseT : String → Option (String × String)}
    {now : String} {running : List JVal} {byId : JVal → Option JVal}
    {st st' : EngineState}
    (hupd : update_scores parseT now running byId st = .ok st') :
    st'.tracked.length = st.tracked.length ∧
    (byIdHonest byId →
      ∀ i (hi : i < st.tracked.length) (hi' : i < st'.tracked.length),
        canonS ((st'.tracked.get ⟨i, hi'⟩).id) =
          canonS ((st.tracked.get ⟨i, hi⟩).id)) := by
  rcases update_scores_ok_anatomy hupd with ⟨hnil, rfl⟩ | ⟨hne, mp, tr', hmp, htr, rfl⟩
  · exact ⟨rfl, fun _ i hi hi' => rfl⟩
  · refine ⟨exceptMapM_length htr, ?_⟩
    intro hhon i hi hi'
    exact updateSlot_canon_id (buildRunningMap_inv hmp) hhon
      (exceptMapM_get htr i hi hi')

/-- C7 (counterexample): with a by-id response that does not carry the
queried id, `update_scores` changes the id stored at position 0 — the match
at position 0 after the update no longer has the id that the most recent
refresh put there. -/
theorem update_scores_changes_slot_id :
    refresh_matches_list noParse "tR" [rawA7] initState = .ok stR7 ∧
    update_scores noParse "u1" [] byId6 stR7 = .ok stU7 ∧
    stR7.tracked.map (fun m => idInt? m.id) = [some 1] ∧
    stU7.tracked.map (fun m => idInt? m.id) = [some 2] ∧
    ¬ (some (2 : Int) = some 1) :=
  ⟨rfl, rfl, rfl, rfl, by decide⟩

theorem byIdW_honest : byIdHonest byIdW := by
  intro q d hq
  cases q <;> simp [byIdW] at hq
  case jint n =>
    obtain ⟨hn, hd⟩ := hq
    subst hn
    rw [← hd]
    rfl

/-- Application of `update_scores_preserves_positions` to a one-match state
whose running match is re-fetched by id with an honest response. -/
theorem update_scores_preserves_positions_app :
    stW6a.tracked.length = st6.tracked.length ∧
    canonS ((stW6a.tracked.get ⟨0, by decide⟩).id) =
      canonS ((st6.tracked.get ⟨0, by decide⟩).id) := by
  have h := @update_scores_preserves_positions noParse "w1" [] byIdW
    st6 stW6a rfl
  exact ⟨h.1, h.2 byIdW_honest 0 (by decide) (by decide)⟩

/-! ## Claim C6: idempotence of `update_scores` modulo timestamps -/

theorem updateSlot_idem {parseT : String → Option (String × String)}
    {now1 now2 : String} {mp : List (JVal × JVal)} {byId : JVal → Option JVal}
    {m m1 : TrackedMatch} (hinv : MapInv mp) (hhon : byIdHonest byId)
    (h : updateSlot parseT now1 mp byId m = .ok m1) :
    ∃ m2, updateSlot parseT now2 mp byId m1 = .ok m2 ∧ stripTs m2 = stripTs m1 := by
  unfold updateSlot at h
  by_cases hh : hashable m.id = true
  · rw [if_pos hh] at h
    cases hg : dictGet? mp m.id with
    | some fresh =>
      rw [hg] at h
      have h1 : _normalize parseT now1 fresh = .ok m1 := h
      obtain ⟨hid1, _, _, hinvar⟩ := normalize_fields h1
      obtain ⟨k', hk', hkb⟩ := dictGet?_some hg
      obtain ⟨hhk, k2, hid2, hhk2, hkb2⟩ := hinv _ hk'
      rw [hid1] at hid2
      injection hid2 with e
      have e2 : canonS k' = canonS k2 := (keyBeq_iff_canon hhk hhk2).mp hkb2
      have e3 : canonS k' = canonS m.id := (keyBeq_iff_canon hhk hh).mp hkb
      have hcanon : canonS m1.id = canonS m.id := by
        rw [e, ← e2]
        exact e3
      have hhm1 : hashable m1.id = true := by
        rw [e]
        exact hhk2
      have hgoal : updateSlot parseT now2 mp byId m1 = _normalize parseT now2 fresh := by
        unfold updateSlot
        rw [if_pos hhm1, dictGet?_congr hcanon mp, hg]
      refine ⟨{ m1 with last_update := now2 }, ?_, rfl⟩
      rw [hgoal]
      exact hinvar now2
    | none =>
      rw [hg] at h
      have h1 : (if statusIsRunning m.status then
            match byId m.id with
            | some d => _normalize parseT now1 d
            | none => pure m
          else pure m) = .ok m1 := h
      by_cases hr : statusIsRunning m.status = true
      · rw [if_pos hr] at h1
        cases hb : byId m.id with
        | some d =>
          rw [hb] at h1
          have h2 : _normalize parseT now1 d = .ok m1 := h1
          obtain ⟨hid1, _, _, hinvar⟩ := normalize_fields h2
          have hidq : pyGet d "id" = .ok m.id := hhon _ _ hb
          rw [hidq] at hid1
          injection hid1 with e0
          have e' : m1.id = m.id := e0.symm
          by_cases hr2 : statusIsRunning m1.status = true
          · have hgoal : updateSlot parseT now2 mp byId m1 = _normalize parseT now2 d := by
              unfold updateSlot
              rw [e', if_pos hh, hg, if_pos hr2, hb]
            refine ⟨{ m1 with last_update := now2 }, ?_, rfl⟩
            rw [hgoal]
            exact hinvar now2
          · have hgoal : updateSlot parseT now2 mp byId m1 = .ok m1 := by
              unfold updateSlot
              rw [e', if_pos hh, hg, if_neg hr2]
              rfl
            exact ⟨m1, hgoal, rfl⟩
        | none =>
          rw [hb] at h1
          have h2 : Except.ok (ε := PyErr) m = .ok m1 := h1
          injection h2 with e
          subst e
          have hgoal : updateSlot parseT now2 mp byId m = .ok m := by
            unfold updateSlot
            rw [if_pos hh, hg, if_pos hr, hb]
            rfl
          exact ⟨m, hgoal, rfl⟩
      · rw [if_neg hr] at h1
        have h2 : Except.ok (ε := PyErr) m = .ok m1 := h1
        injection h2 with e
        subst e
        have hgoal : updateSlot parseT now2 mp byId m = .ok m := by
          unfold updateSlot
          rw [if_pos hh, hg, if_neg hr]
          rfl
        exact ⟨m, hgoal, rfl⟩
  · rw [if_neg hh] at h
    simp at h

theorem exceptMapM_updateSlot_idem {parseT : String → Option (String × String)}
    {now1 now2 : String} {mp : List (JVal × JVal)} {byId : JVal → Option JVal}
    (hinv : MapInv mp) (hhon : byIdHonest byId) :
    ∀ {l l1 : List TrackedMatch},
      exceptMapM (updateSlot parseT now1 mp byId) l = .ok l1 →
      ∃ l2, exceptMapM (updateSlot parseT now2 mp byId) l1 = .ok l2 ∧
        l2.map stripTs = l1.map stripTs := by
  intro l
  induction l with
  | nil =>
    intro l1 h
    have h' : Except.ok (ε := PyErr) ([] : List TrackedMatch) = .ok l1 := h
    injection h' with e
    refine ⟨[], ?_, ?_⟩
    · rw [← e]
      rfl
    · rw [← e]
  | cons x xs ih =>
    intro l1 h
    rw [exceptMapM_cons_ok] at h
    obtain ⟨m1, ms1, h1, h2, rfl⟩ := h
    obtain ⟨m2, hm2, hstrip⟩ := updateSlot_idem hinv hhon h1
    obtain ⟨l2, hl2, hstrips⟩ := ih h2
    refine ⟨m2 :: l2, ?_, ?_⟩
    · rw [exceptMapM_cons_ok]
      exact ⟨m2, l2, hm2, hl2, rfl⟩
    · simp only [List.map_cons, hstrip, hstrips]

/-- C6 (amended): provided every by-id response carries the queried id, a
second `update_scores` cycle run with provider responses identical to the
first cycle's succeeds and changes no tracked match in any way other than its
`last_update` normalization timestamp (and the engine's `last_refresh`, which
the claim already excludes).  Without the by-id proviso the claim is false
(see the counterexample). -/
theorem update_scores_idempotent_mod_timestamps
    {parseT : String → Option (String × String)} {now1 now2 : String}
    {running : List JVal} {byId : JVal → Option JVal} {st st1 : EngineState}
    (hhon : byIdHonest byId)
    (h1 : update_scores parseT now1 running byId st = .ok st1) :
    (∃ st2, update_scores parseT now2 running byId st1 = .ok st2) ∧
    (∀ st2, update_scores parseT now2 running byId st1 = .ok st2 →
      st2.tracked.map stripTs = st1.tracked.map stripTs) := by
  rcases update_scores_ok_anatomy h1 with ⟨hnil, he⟩ | ⟨hne, mp, tr', hmp, htr, he⟩
  · have hres : update_scores parseT now2 running byId st1 = .ok st1 := by
      rw [he]
      unfold update_scores
      rw [if_pos (by simp [hnil])]
    refine ⟨⟨st1, hres⟩, ?_⟩
    intro st2 h2
    rw [hres] at h2
    injection h2 with e
    rw [← e]
  · have hmapinv := buildRunningMap_inv hmp
    obtain ⟨l2, hl2, hstrips⟩ :=
      @exceptMapM_updateSlot_idem parseT now1 now2 mp byId hmapinv hhon
        st.tracked tr' htr
    have hne' : tr' ≠ [] := by
      intro hnil'
      apply hne
      have hlen := exceptMapM_length htr
      rw [hnil'] at hlen
      exact List.length_eq_zero.mp hlen.symm
    have hres : update_scores parseT now2 running byId st1 =
        .ok { tracked := l2, lastRefresh := st.lastRefresh,
              store := { «matches» := l2, last_refresh := st.lastRefresh } } := by
      rw [he]
      unfold update_scores
      rw [if_neg (by simpa using hne')]
      simp only [hmp, ok_bind, hl2, pure_eq_ok]
    refine ⟨⟨_, hres⟩, ?_⟩
    intro st2 h2
    rw [hres] at h2
    injection h2 with e
    rw [← e, he]
    exact hstrips

/-- C6 (counterexample): with by-id responses that do not carry the queried
ids but are identical across both cycles (empty running feed both times), a
second `update_scores` cycle changes the tracked match's id (2 → 3) and
status (running → finished) — an observable change well beyond the timestamp
fields. -/
theorem update_scores_second_cycle_changes_state :
    update_scores noParse "u1" [] byId6 st6 = .ok st6a ∧
    update_scores noParse "u2" [] byId6 st6a = .ok st6b ∧
    st6a.tracked.map (fun m => idInt? m.id) = [some 2] ∧
    st6b.tracked.map (fun m => idInt? m.id) = [some 3] ∧
    ¬ (some (3 : Int) = some 2) :=
  ⟨rfl, rfl, rfl, rfl, by decide⟩

theorem byIdW2_honest : byIdHonest byIdW2 := by
  intro q d hq
  cases q <;> simp [byIdW2] at hq
  case jint n =>
    obtain ⟨hn, hd⟩ := hq
    subst hn
    rw [← hd]
    rfl

/-- Application of `update_scores_idempotent_mod_timestamps` to a one-match
state kept running by an honest by-id fetch: the second cycle only moves the
`last_update` timestamp. -/
theorem update_scores_idempotent_mod_timestamps_app :
    stV2.tracked.map stripTs = stV1.tracked.map stripTs := by
  have h := @update_scores_idempotent_mod_timestamps noParse "v1" "v2" []
    byIdW2 st6 stV1 byIdW2_honest rfl
  exact h.2 stV2 rfl

/-! ## Claim C8: id uniqueness across reachable states -/

/-- C8 (counterexample): the duplicate-free property is NOT an invariant for
arbitrary provider responses — a refresh whose upcoming feed lists the same
match twice produces a reachable tracked set with two entries of id 1. -/
theorem reachable_duplicate_ids :
    Reach noParse stDup8 ∧
    stDup8.tracked.map (fun m => idInt? m.id) = [some 1, some 1] ∧
    ¬ TrackedDistinct stDup8 := by
  refine ⟨Reach.refresh initState stDup8 "tR" [rawD8, rawD8] Reach.init rfl,
    rfl, ?_⟩
  intro h
  rcases List.pairwise_cons.mp h with ⟨hf, _⟩
  exact hf _ (by simp) rfl

/-- C8 (amended): id uniqueness IS an invariant of every state reachable by
refresh/update cycles whose provider responses are sane: each refresh feed
carries pairwise-distinct ids and each by-id response carries the queried id.
Under arbitrary responses the invariant fails (see the counterexample). -/
theorem tracked_id_uniqueness {parseT : String → Option (String × String)}
    {st : EngineState} (h : GoodReach parseT st) : TrackedDistinct st := by
  induction h with
  | init => simp [TrackedDistinct, initState]
  | refresh st st' now raw hr hdist hre ih =>
    unfold refresh_matches_list at hre
    by_cases hemp : raw.isEmpty
    · rw [if_pos hemp] at hre
      injection hre with e
      rw [← e]
      exact ih
    · rw [if_neg hemp] at hre
      rw [bind_ok_iff] at hre
      obtain ⟨tr, htr, hre⟩ := hre
      simp only [pure_eq_ok, Except.ok.injEq] at hre
      rw [← hre]
      unfold TrackedDistinct
      show List.Pairwise (fun a b => canonS a.id ≠ canonS b.id) tr
      have hlen := exceptMapM_length htr
      rw [List.pairwise_iff_get]
      intro i j hij
      have hgi := exceptMapM_get htr i.val (by omega) i.isLt
      have hgj := exceptMapM_get htr j.val (by omega) j.isLt
      have hi_id := (normalize_fields hgi).1
      have hj_id := (normalize_fields hgj).1
      have hRij := List.pairwise_iff_get.mp hdist ⟨i.val, by omega⟩
        ⟨j.val, by omega⟩ hij
      exact hRij _ _ hi_id hj_id
  | update st st' now running byId hr hhon hup ih =>
    rcases update_scores_ok_anatomy hup with ⟨hnil, he⟩ | ⟨hne, mp, tr', hmp, htr, he⟩
    · rw [he]
      exact ih
    · rw [he]
      unfold TrackedDistinct
      show List.Pairwise (fun a b => canonS a.id ≠ canonS b.id) tr'
      have hlen := exceptMapM_length htr
      rw [List.pairwise_iff_get]
      intro i j hij
      have hgi := exceptMapM_get htr i.val (by omega) i.isLt
      have hgj := exceptMapM_get htr j.val (by omega) j.isLt
      have e_i := updateSlot_canon_id (buildRunningMap_inv hmp) hhon hgi
      have e_j := updateSlot_canon_id (buildRunningMap_inv hmp) hhon hgj
      have hPrev := List.pairwise_iff_get.mp ih ⟨i.val, by omega⟩
        ⟨j.val, by omega⟩ hij
      rw [e_i, e_j]
      exact hPrev

/-- Application of `tracked_id_uniqueness` after one good refresh on a
two-match feed with distinct ids. -/
theorem tracked_id_uniqueness_app : TrackedDistinct stW8 := by
  refine @tracked_id_uniqueness noParse stW8
    (GoodReach.refresh initState stW8 "tR" [rawW8a, rawW8b] GoodReach.init ?_ rfl)
  unfold DistinctIds
  refine List.Pairwise.cons ?_ (List.Pairwise.cons (by simp) List.Pairwise.nil)
  intro b hb ka kb hka hkb
  simp only [List.mem_singleton] at hb
  subst hb
  have h1 : Except.ok (ε := PyErr) (JVal.jint 1) = .ok ka := hka
  have h2 : Except.ok (ε := PyErr) (JVal.jint 2) = .ok kb := hkb
  injection h1 with e1
  injection h2 with e2
  rw [← e1, ← e2]
  simp [canonS]

/-! ## Claim C9: compact endpoint formatting for a two-match set -/

/-- C9: for a tracked set of exactly two matches, `GET /lol/matches/compact`
fills `match1`/`match2` with the single formatted display line of each match
and leaves `match3`..`match5` as empty strings; every line is exactly
`status_icon + team1 + (score or "vs") + team2 + " • " + local_human_time +
" • " + short_tournament`, and a missing second team renders as the `"?"`
placeholder (with the score part forced to `"vs"`). -/
theorem compact_two_match_formatting :
    (∀ st m1 m2 l1 l2, st.tracked = [m1, m2] →
       formatLine m1 = .ok l1 → formatLine m2 = .ok l2 →
       get_matches_compact st =
         .ok { match1 := l1, match2 := l2, match3 := "", match4 := "",
               match5 := "", last_update := st.lastRefresh }) ∧
    (∀ m icon, statusIcon m.status = .ok icon →
       formatLine m = .ok (icon ++ " " ++ teamNameStr m.teams[0]? ++ " "
         ++ scoreStrOf m.teams[0]? m.teams[1]? ++ " " ++ teamNameStr m.teams[1]?
         ++ " • " ++ humanOf m ++ " • " ++ shortTournOf m)) ∧
    (∀ m t1 icon, m.teams = [t1] → statusIcon m.status = .ok icon →
       formatLine m = .ok (icon ++ " " ++ pyStr t1.name ++ " " ++ "vs" ++ " "
         ++ "?" ++ " • " ++ humanOf m ++ " • " ++ shortTournOf m)) := by
  refine ⟨?_, ?_, ?_⟩
  · intro st m1 m2 l1 l2 hst h1 h2
    have hmap : exceptMapM formatLine [m1, m2] = .ok [l1, l2] := by
      rw [exceptMapM_cons_ok]
      refine ⟨l1, [l2], h1, ?_, rfl⟩
      rw [exceptMapM_cons_ok]
      exact ⟨l2, [], h2, rfl, rfl⟩
    unfold get_matches_compact
    rw [hst]
    rw [if_neg (by simp)]
    simp only [show ([m1, m2] : List TrackedMatch).take 5 = [m1, m2] from rfl,
      hmap, ok_bind, pure_eq_ok]
    rfl
  · intro m icon hic
    unfold formatLine
    simp only [hic, ok_bind, pure_eq_ok]
  · intro m t1 icon hteams hic
    unfold formatLine
    rw [hteams]
    simp only [hic, ok_bind, pure_eq_ok]
    simp [teamNameStr, scoreStrOf, isNull]

/-- Application of `compact_two_match_formatting` at a concrete two-match
state (a finished match with scores and a not-started match with a single
announced team). -/
theorem compact_two_match_formatting_app :
    get_matches_compact st9 =
      .ok { match1 := "✅ G2 [3-1] FNC • 01/06 17:00 • LFL",
            match2 := "⏰ T1 vs ? • None • Worlds",
            match3 := "", match4 := "", match5 := "",
            last_update := some oldTs } := by
  have h := compact_two_match_formatting.1 st9 m9a m9b
    "✅ G2 [3-1] FNC • 01/06 17:00 • LFL" "⏰ T1 vs ? • None • Worlds"
    rfl (by rfl) (by rfl)
  exact h
